import Mathlib

/-!
Verification development for the cudamapper overlap/alignment pipeline
(`main.cu` of the GenomeWorks cudamapper application).

The development shallowly embeds the batch-pairing loop
(`process_one_device_batch`), the alignment batch sizing and the
cursor-claiming loop of `align_overlaps` / `run_alignment_batch`, the
worker / writer thread control flow, the per-device shutdown sequence of
`main`, and the `ThreadsafeProducerConsumer` handoff queue.

Modelling conventions:
* machine integers (`int32_t`, `size_t`, read ids, positions) are embedded
  as `Nat`; all quantities involved are sizes and indices that the program
  keeps non-negative, and the concrete inputs used stay far below `2^31`,
  so wrap-around never matters for the statements proved here;
* the `float` arithmetic of the batch-size heuristic is embedded as exact
  rational arithmetic over `ℚ` with the source constants `85 / 100`
  (the "85% of available memory" factor) and `3 / 100`
  (`memory_per_base = 0.03f`); the truncating `static_cast<size_t>` of a
  non-negative value is `Nat.floor`;
* code that can loop forever (the cursor-claiming loop when the batch
  size is zero) is embedded with an explicit fuel argument; a `none`
  result for every fuel value models non-termination;
* mutex-serialized shared-state operations (the cursor claims, the queue
  operations) are embedded as the sequence of their atomic critical
  sections: the mutex makes every interleaving equivalent to such a
  serialization, and the claimed ranges and the final cigar array do not
  depend on which engine thread performs which (disjoint) claim;
* external collaborators that the spec places out of scope (the aligner
  kernels, parsers, matcher/overlapper internals) are abstracted by an
  opaque-to-the-model function argument (`ac : Overlap → String` maps an
  overlap to the CIGAR string its alignment produces).
-/

namespace GW

/-- An `IndexDescriptor` identifies a contiguous range of reads:
`(first_read_id, number_of_reads)`. -/
structure IndexDescriptor where
  first_read : Nat
  number_of_reads : Nat
deriving DecidableEq

/-- Embedding of the pair-processing double loop of
`process_one_device_batch` (main.cu lines 211-257): for every
`(query_descriptor, target_descriptor)` pair of the device batch, the
matcher/overlapper/aligner body runs exactly when
`!all_to_all || target.first_read() >= query.first_read()` (line 216).
The result lists the processed pairs in loop order. -/
def process_one_device_batch (all_to_all : Bool)
    (query_index_descriptors target_index_descriptors : List IndexDescriptor) :
    List (IndexDescriptor × IndexDescriptor) :=
  query_index_descriptors.flatMap fun q =>
    (target_index_descriptors.filter fun t =>
      !all_to_all || decide (q.first_read ≤ t.first_read)).map fun t => (q, t)

/-- Splitting a sum of pointwise sums. -/
lemma sum_map_add {α : Type} (f g : α → Nat) :
    ∀ l : List α, (l.map fun a => f a + g a).sum = (l.map f).sum + (l.map g).sum := by
  intro l
  induction l with
  | nil => simp
  | cons x xs ih =>
    simp only [List.map_cons, List.sum_cons, ih]
    omega

/-- Two pointwise-equal maps have the same sum. -/
lemma sum_map_congr {α : Type} (f g : α → Nat) (h : ∀ a, f a = g a) :
    ∀ l : List α, (l.map f).sum = (l.map g).sum := by
  intro l
  induction l with
  | nil => rfl
  | cons x xs ih => simp only [List.map_cons, List.sum_cons, ih, h x]

/-- A sum of `0/1` indicators is a filter length. -/
lemma sum_map_ite (x : Nat) :
    ∀ l : List Nat,
      (l.map fun a => if a ≤ x then 1 else 0).sum
        = (l.filter fun a => decide (a ≤ x)).length := by
  intro l
  induction l with
  | nil => rfl
  | cons b bs ih =>
    by_cases h : b ≤ x <;> simp [List.filter_cons, h, ih] <;> omega

/-- For a value `x` different from every member of `l`, every member is
counted by exactly one of the two comparison filters. -/
lemma count_ge_add_count_le (x : Nat) :
    ∀ l : List Nat, (∀ b ∈ l, b ≠ x) →
      (l.filter fun b => decide (x ≤ b)).length
        + (l.filter fun b => decide (b ≤ x)).length = l.length := by
  intro l
  induction l with
  | nil => simp
  | cons b bs ih =>
    intro h
    have hb : b ≠ x := h b (List.mem_cons_self b bs)
    have hrest := ih fun c hc => h c (List.mem_cons_of_mem _ hc)
    by_cases hxb : x ≤ b
    · have hbx : ¬ b ≤ x := fun hle => hb (Nat.le_antisymm hle hxb)
      simp only [List.filter_cons, decide_eq_true_eq]
      rw [if_pos hxb, if_neg hbx]
      simp only [List.length_cons]
      omega
    · have hbx : b ≤ x := Nat.le_of_not_le hxb
      simp only [List.filter_cons, decide_eq_true_eq]
      rw [if_neg hxb, if_pos hbx]
      simp only [List.length_cons]
      omega

/-- Length of a filter over a cons, as an indicator plus the tail count. -/
lemma length_filter_cons {α : Type} (p : α → Bool) (x : α) (l : List α) :
    ((x :: l).filter p).length = (if p x then 1 else 0) + (l.filter p).length := by
  rw [List.filter_cons]
  split <;> simp <;> omega

/-- Core symmetry count: over a duplicate-free list of keys, the number of
ordered pairs `(a, b)` with `a ≤ b` is `n * (n + 1) / 2` (stated without
division). For each unordered pair of distinct keys exactly one order
satisfies `≤`, and each key also pairs with itself. -/
lemma sum_ge_counts :
    ∀ l : List Nat, l.Nodup →
      ((l.map fun a => (l.filter fun b => decide (a ≤ b)).length).sum) * 2
        = l.length * (l.length + 1) := by
  intro l
  induction l with
  | nil => simp
  | cons x xs ih =>
    intro h
    rw [List.nodup_cons] at h
    obtain ⟨hx, hnd⟩ := h
    have hne : ∀ b ∈ xs, b ≠ x := fun b hb hbx => hx (hbx ▸ hb)
    have hcnt := count_ge_add_count_le x xs hne
    have hih := ih hnd
    simp only [List.map_cons, List.sum_cons, length_filter_cons, decide_eq_true_eq]
    rw [if_pos (Nat.le_refl x)]
    have hsplit := sum_map_add (fun a => if a ≤ x then 1 else 0)
      (fun a => (xs.filter fun b => decide (a ≤ b)).length) xs
    rw [hsplit, sum_map_ite]
    simp only [List.length_cons]
    have hexp : (xs.length + 1) * (xs.length + 1 + 1)
        = xs.length * (xs.length + 1) + 2 * (xs.length + 1) := by ring
    omega

/-- The body condition at line 216 of main.cu as a proposition. -/
lemma pair_condition (a2a : Bool) (q t : IndexDescriptor) :
    ((!a2a || decide (q.first_read ≤ t.first_read)) = true)
      ↔ (a2a = false ∨ q.first_read ≤ t.first_read) := by
  cases a2a <;> simp

/-- Membership in the processed-pair list. -/
lemma mem_process_one_device_batch (a2a : Bool)
    (qs ts : List IndexDescriptor) (q t : IndexDescriptor) :
    (q, t) ∈ process_one_device_batch a2a qs ts
      ↔ q ∈ qs ∧ t ∈ ts ∧ (a2a = false ∨ q.first_read ≤ t.first_read) := by
  unfold process_one_device_batch
  simp only [List.mem_flatMap, List.mem_map, List.mem_filter, Prod.mk.injEq]
  constructor
  · rintro ⟨q', hq', t', ⟨ht', hcond⟩, hqq, htt⟩
    subst hqq
    subst htt
    exact ⟨hq', ht', (pair_condition a2a q' t').mp hcond⟩
  · rintro ⟨hq, ht, hcond⟩
    exact ⟨q, hq, t, ⟨ht, (pair_condition a2a q t).mpr hcond⟩, rfl, rfl⟩

/-- Number of processed pairs, as a sum over the query descriptors. -/
lemma length_process_one_device_batch (a2a : Bool)
    (qs ts : List IndexDescriptor) :
    (process_one_device_batch a2a qs ts).length
      = (qs.map fun q =>
          ((ts.filter fun t =>
            !a2a || decide (q.first_read ≤ t.first_read)).length)).sum := by
  unfold process_one_device_batch
  induction qs with
  | nil => rfl
  | cons q qs ih => simp [List.flatMap_cons, ih]

/-- Filtering descriptors by a key comparison has the same length as
filtering the projected key list. -/
lemma length_filter_first_read (a : Nat) (ds : List IndexDescriptor) :
    (ds.filter fun t => decide (a ≤ t.first_read)).length
      = ((ds.map IndexDescriptor.first_read).filter fun b => decide (a ≤ b)).length := by
  induction ds with
  | nil => rfl
  | cons d ds ih =>
    by_cases h : a ≤ d.first_read <;>
      simp [List.filter_cons, h, ih]

/-- Sum of a constant map. -/
lemma sum_map_const {α : Type} (c : Nat) :
    ∀ l : List α, (l.map fun _ => c).sum = l.length * c := by
  intro l
  induction l with
  | nil => simp
  | cons x xs ih =>
    simp only [List.map_cons, List.sum_cons, ih, List.length_cons]
    ring

/-- C1: a `(query_descriptor, target_descriptor)` pair of the device batch
is matched and overlapped iff `all_to_all` is false or
`target.first_read >= query.first_read`; with identical query and target
descriptor lists of length `n` whose `first_read` ids are pairwise
distinct, all-to-all mode processes exactly `n * (n + 1) / 2` pairs, and
with `all_to_all` false exactly `n * m` pairs are processed. -/
theorem device_batch_pairing_rule (a2a : Bool)
    (qs ts ds : List IndexDescriptor) (q t : IndexDescriptor)
    (hnd : (ds.map IndexDescriptor.first_read).Nodup) :
    ((q, t) ∈ process_one_device_batch a2a qs ts
      ↔ q ∈ qs ∧ t ∈ ts ∧ (a2a = false ∨ q.first_read ≤ t.first_read))
    ∧ (process_one_device_batch true ds ds).length
        = ds.length * (ds.length + 1) / 2
    ∧ (process_one_device_batch false qs ts).length = qs.length * ts.length := by
  refine ⟨mem_process_one_device_batch a2a qs ts q t, ?_, ?_⟩
  · rw [length_process_one_device_batch]
    simp only [Bool.not_true, Bool.false_or]
    have hpt :
        (ds.map fun q =>
            ((ds.filter fun t => decide (q.first_read ≤ t.first_read)).length)).sum
          = (ds.map fun q =>
              (((ds.map IndexDescriptor.first_read).filter fun b =>
                decide (q.first_read ≤ b)).length)).sum :=
      sum_map_congr _ _ (fun q => length_filter_first_read q.first_read ds) ds
    have hmm :
        (ds.map fun q =>
            (((ds.map IndexDescriptor.first_read).filter fun b =>
              decide (q.first_read ≤ b)).length)).sum
          = ((ds.map IndexDescriptor.first_read).map fun a =>
              (((ds.map IndexDescriptor.first_read).filter fun b =>
                decide (a ≤ b)).length)).sum := by
      rw [List.map_map]
      rfl
    have hcore := sum_ge_counts (ds.map IndexDescriptor.first_read) hnd
    rw [List.length_map] at hcore
    rw [hpt, hmm]
    omega
  · rw [length_process_one_device_batch]
    simp only [Bool.not_false, Bool.true_or, List.filter_true]
    exact sum_map_const ts.length qs

/-- Concrete descriptor list used by the C1 witness. -/
def descriptors_example : List IndexDescriptor :=
  [⟨0, 2⟩, ⟨4, 2⟩, ⟨2, 2⟩]

/-- Witness for C1 at a concrete device batch of three descriptors with
pairwise distinct `first_read` ids. -/
theorem device_batch_pairing_rule_witness :
    (process_one_device_batch true descriptors_example descriptors_example).length
        = 3 * (3 + 1) / 2
    ∧ (process_one_device_batch false descriptors_example descriptors_example).length
        = 3 * 3 := by
  have h := device_batch_pairing_rule true descriptors_example descriptors_example
    descriptors_example ⟨0, 2⟩ ⟨4, 2⟩ (by decide)
  exact ⟨by simpa using h.2.1, by simpa using h.2.2⟩

/-- An overlap record as produced by the overlap-detection stage
(positions are offsets within each read). `relative_strand_reverse`
embeds `relative_strand == RelativeStrand::Reverse`. -/
structure Overlap where
  query_read_id : Nat
  target_read_id : Nat
  query_start_position_in_read : Nat
  query_end_position_in_read : Nat
  target_start_position_in_read : Nat
  target_end_position_in_read : Nat
  relative_strand_reverse : Bool
deriving DecidableEq

instance : Inhabited Overlap := ⟨⟨0, 0, 0, 0, 0, 0, false⟩⟩

/-- `query_end_position_in_read_ - query_start_position_in_read_`
(main.cu line 138). Truncated `Nat` subtraction agrees with the source's
signed computation for well-formed overlaps (`start <= end`), and for the
running maximum below it also agrees when `end < start`, because the
source's maximum starts at `0` and a negative size never replaces it. -/
def query_overlap_size (o : Overlap) : Nat :=
  o.query_end_position_in_read - o.query_start_position_in_read

/-- `target_end_position_in_read_ - target_start_position_in_read_`
(main.cu line 139). -/
def target_overlap_size (o : Overlap) : Nat :=
  o.target_end_position_in_read - o.target_start_position_in_read

/-- One iteration of the maximum-tracking loop of `align_overlaps`
(main.cu lines 136-144): both running maxima are updated with
`if (size > max) max = size`. -/
def max_step (acc : Nat × Nat) (o : Overlap) : Nat × Nat :=
  ((if query_overlap_size o > acc.1 then query_overlap_size o else acc.1),
   (if target_overlap_size o > acc.2 then target_overlap_size o else acc.2))

/-- The `(max_query_size, max_target_size)` pair computed by the loop of
`align_overlaps` starting from `(0, 0)` (main.cu lines 133-144). -/
def max_sizes (overlaps : List Overlap) : Nat × Nat :=
  overlaps.foldl max_step (0, 0)

/-- `max_alignments` of `align_overlaps` (main.cu lines 148-152):
`(static_cast<float>(free) * 85 / 100) / (0.03f * max_query_size *
max_target_size)`, truncated to an unsigned integer. The `float`
arithmetic is idealized as exact rational arithmetic with the source
constants `85 / 100` and `3 / 100`. -/
def max_alignments (free mq mt : Nat) : Nat :=
  ⌊((free : ℚ) * 85 / 100) / ((3 / 100 : ℚ) * mq * mt)⌋₊

/-- `batch_size` of `align_overlaps` (main.cu line 153):
`min(overlap_count, max_alignments) / num_alignment_engines` with integer
division. -/
def batch_size (noverlaps free mq mt engines : Nat) : Nat :=
  min noverlaps (max_alignments free mq mt) / engines

/-- Spec-side formula: `max_query_len` as the maximum of
`query_end - query_start` over all overlaps, `0` for an empty list. -/
def spec_max_query_size (overlaps : List Overlap) : Nat :=
  (overlaps.map query_overlap_size).foldr max 0

/-- Spec-side formula: `max_target_len` as the maximum of
`target_end - target_start` over all overlaps, `0` for an empty list. -/
def spec_max_target_size (overlaps : List Overlap) : Nat :=
  (overlaps.map target_overlap_size).foldr max 0

/-- Spec-side formula:
`min(total_overlaps, floor(0.85 * free / (k * max_query_len *
max_target_len))) / num_engines` with `k = 0.03` and floor division by
`num_engines`. In exact arithmetic
`floor(0.85 * free / (0.03 * mq * mt)) = (85 * free) / (3 * (mq * mt))`
as a natural-number division, which is how the floor is written here. -/
def spec_batch_size (noverlaps free mq mt engines : Nat) : Nat :=
  min noverlaps (85 * free / (3 * (mq * mt))) / engines

/-- The paired maximum fold splits into two independent folds. -/
lemma max_sizes_foldl_split :
    ∀ (l : List Overlap) (a b : Nat),
      l.foldl max_step (a, b)
        = (l.foldl (fun m o => if query_overlap_size o > m then query_overlap_size o else m) a,
           l.foldl (fun m o => if target_overlap_size o > m then target_overlap_size o else m) b) := by
  intro l
  induction l with
  | nil => intro a b; rfl
  | cons o l ih =>
    intro a b
    simp only [List.foldl_cons, max_step]
    exact ih _ _

/-- A running `if >` maximum fold equals `max` of the seed with the
fold-right maximum of the mapped list. -/
lemma foldl_if_max (f : Overlap → Nat) :
    ∀ (l : List Overlap) (a : Nat),
      l.foldl (fun m o => if f o > m then f o else m) a
        = max a ((l.map f).foldr max 0) := by
  intro l
  induction l with
  | nil => intro a; simp
  | cons o l ih =>
    intro a
    simp only [List.foldl_cons, List.map_cons, List.foldr_cons]
    rw [ih]
    have h1 : (if f o > a then f o else a) = max a (f o) := by
      split <;> omega
    rw [h1]
    omega

/-- The loop maxima of `align_overlaps` are the spec maxima. -/
lemma max_sizes_eq_spec (overlaps : List Overlap) :
    max_sizes overlaps = (spec_max_query_size overlaps, spec_max_target_size overlaps) := by
  unfold max_sizes spec_max_query_size spec_max_target_size
  rw [max_sizes_foldl_split, foldl_if_max, foldl_if_max]
  simp

/-- Bridge between the rational float model and natural-number division:
for positive maxima, the truncated heuristic equals
`(85 * free) / (3 * (mq * mt))` in `Nat` arithmetic. -/
lemma max_alignments_eq_nat_formula (free mq mt : Nat) (h : 0 < mq * mt) :
    max_alignments free mq mt = 85 * free / (3 * (mq * mt)) := by
  have hmq : mq ≠ 0 := by
    rintro rfl
    simp at h
  have hmt : mt ≠ 0 := by
    rintro rfl
    simp at h
  have hmq' : (mq : ℚ) ≠ 0 := Nat.cast_ne_zero.mpr hmq
  have hmt' : (mt : ℚ) ≠ 0 := Nat.cast_ne_zero.mpr hmt
  unfold max_alignments
  have hval : ((free : ℚ) * 85 / 100) / ((3 / 100 : ℚ) * mq * mt)
      = ((85 * free : Nat) : ℚ) / ((3 * (mq * mt) : Nat) : ℚ) := by
    push_cast
    field_simp
    ring
  rw [hval, Nat.floor_div_nat, Nat.floor_natCast]

/-- C6: `align_overlaps` computes `max_query_len` / `max_target_len` as
the maxima over all overlaps of the query/target overlap extents (`0` for
an empty list), and computes
`batch_size = min(total_overlaps, floor(0.85 * free / (k * max_query_len
* max_target_len))) / num_engines` with integer (floor) division by
`num_engines`, for the fixed per-base constant `k = 0.03`. -/
theorem align_overlaps_sizing_refines_spec
    (overlaps : List Overlap) (free engines : Nat) :
    max_sizes overlaps
      = (spec_max_query_size overlaps, spec_max_target_size overlaps)
    ∧ max_sizes ([] : List Overlap) = (0, 0)
    ∧ (0 < (max_sizes overlaps).1 * (max_sizes overlaps).2 →
        batch_size overlaps.length free
            (max_sizes overlaps).1 (max_sizes overlaps).2 engines
          = spec_batch_size overlaps.length free
              (max_sizes overlaps).1 (max_sizes overlaps).2 engines) := by
  refine ⟨max_sizes_eq_spec overlaps, rfl, ?_⟩
  intro hpos
  unfold batch_size spec_batch_size
  rw [max_alignments_eq_nat_formula _ _ _ hpos]

/-- Concrete overlap list used by the C6 witness: extents 5x4 and 7x2. -/
def overlaps_example : List Overlap :=
  [⟨0, 1, 10, 15, 20, 24, false⟩, ⟨2, 3, 0, 7, 5, 7, true⟩]

/-- Witness for C6 at a concrete overlap list (maxima `7` and `4`) and a
concrete free-memory figure. -/
theorem align_overlaps_sizing_refines_spec_witness :
    max_sizes overlaps_example
      = (spec_max_query_size overlaps_example, spec_max_target_size overlaps_example)
    ∧ batch_size overlaps_example.length 100000
        (max_sizes overlaps_example).1 (max_sizes overlaps_example).2 2
      = spec_batch_size overlaps_example.length 100000
          (max_sizes overlaps_example).1 (max_sizes overlaps_example).2 2 := by
  have h := align_overlaps_sizing_refines_spec overlaps_example 100000 2
  exact ⟨h.1, h.2.2 (by decide)⟩

/-- The cursor-claiming loop of `run_alignment_batch` (main.cu lines
68-84), serialized by `overlap_idx_mtx`: each critical section either
observes `overlap_idx == overlaps.size()` and breaks, or claims the range
`[overlap_idx, min(overlap_idx + batch_size, overlaps.size()))` and
advances the cursor to the range's end. `claim_loop fuel cursor n b`
returns the list of `(idx_start, idx_end)` ranges claimed (by whichever
engine thread), or `none` when `fuel` critical sections do not reach the
break; `none` for every fuel models non-termination. -/
def claim_loop : Nat → Nat → Nat → Nat → Option (List (Nat × Nat))
  | 0, _, _, _ => none
  | fuel + 1, cursor, n, b =>
    if cursor = n then some []
    else
      match claim_loop fuel (min (cursor + b) n) n b with
      | none => none
      | some rs => some ((cursor, min (cursor + b) n) :: rs)

/-- With `batch_size = 0` and a non-empty remainder, the claimed range is
empty and the cursor never advances, so the loop never reaches the break
no matter how many critical sections run. -/
lemma claim_loop_zero_stuck :
    ∀ (fuel c n : Nat), c < n → claim_loop fuel c n 0 = none := by
  intro fuel
  induction fuel with
  | zero => intro c n _; rfl
  | succ fuel ih =>
    intro c n h
    have hcn : c ≠ n := Nat.ne_of_lt h
    have hmin : min (c + 0) n = c := by omega
    simp only [claim_loop, hcn, if_false, hmin, ih c n h]

/-- With a positive batch size the cursor strictly advances, so
`n - cursor + 1` critical sections suffice to reach the break. -/
lemma claim_loop_terminates :
    ∀ (fuel c n b : Nat), 1 ≤ b → c ≤ n → n - c < fuel →
      (claim_loop fuel c n b).isSome = true := by
  intro fuel
  induction fuel with
  | zero => intro c n b _ _ h; omega
  | succ fuel ih =>
    intro c n b hb hc h
    by_cases hcn : c = n
    · simp [claim_loop, hcn]
    · have hlt : c < n := Nat.lt_of_le_of_ne hc hcn
      have he2 : min (c + b) n ≤ n := by omega
      have hrec := ih (min (c + b) n) n b hb he2 (by omega)
      simp only [claim_loop, hcn, if_false]
      cases hcl : claim_loop fuel (min (c + b) n) n b with
      | none => rw [hcl] at hrec; simp at hrec
      | some rs => simp

/-- The claimed ranges tile `[cursor, n)` exactly: concatenating the
index intervals gives the interval from the starting cursor to `n`. -/
lemma claim_loop_indices :
    ∀ (fuel c n b : Nat) (rs : List (Nat × Nat)),
      claim_loop fuel c n b = some rs → c ≤ n →
      rs.flatMap (fun p => List.range' p.1 (p.2 - p.1)) = List.range' c (n - c) := by
  intro fuel
  induction fuel with
  | zero => intro c n b rs h _; cases h
  | succ fuel ih =>
    intro c n b rs h hc
    by_cases hcn : c = n
    · subst hcn
      have hres : claim_loop (fuel + 1) c c b = some [] := by simp [claim_loop]
      rw [hres] at h
      simp only [Option.some.injEq] at h
      subst h
      simp
    · simp only [claim_loop, hcn, if_false] at h
      cases hcl : claim_loop fuel (min (c + b) n) n b with
      | none => rw [hcl] at h; cases h
      | some rs' =>
        rw [hcl] at h
        cases h
        have hrec := ih (min (c + b) n) n b rs' hcl (by omega)
        simp only [List.flatMap_cons, hrec]
        have h1 : c + 1 * (min (c + b) n - c) = min (c + b) n := by omega
        have h2 : (n - min (c + b) n) + (min (c + b) n - c) = n - c := by omega
        have hr := List.range'_append c (min (c + b) n - c) (n - min (c + b) n) 1
        rw [h1, h2] at hr
        exact hr

/-- Every claimed range holds at most `batch_size` indices and, for a
positive batch size, at least one. -/
lemma claim_loop_range_bounds :
    ∀ (fuel c n b : Nat) (rs : List (Nat × Nat)), 1 ≤ b → c ≤ n →
      claim_loop fuel c n b = some rs →
      ∀ p ∈ rs, p.2 - p.1 ≤ b ∧ p.1 < p.2 := by
  intro fuel
  induction fuel with
  | zero => intro c n b rs _ _ h; cases h
  | succ fuel ih =>
    intro c n b rs hb hc h
    by_cases hcn : c = n
    · subst hcn
      have hres : claim_loop (fuel + 1) c c b = some [] := by simp [claim_loop]
      rw [hres] at h
      simp only [Option.some.injEq] at h
      subst h
      simp
    · have hlt : c < n := Nat.lt_of_le_of_ne hc hcn
      simp only [claim_loop, hcn, if_false] at h
      cases hcl : claim_loop fuel (min (c + b) n) n b with
      | none => rw [hcl] at h; cases h
      | some rs' =>
        rw [hcl] at h
        cases h
        intro p hp
        rcases List.mem_cons.mp hp with rfl | hp'
        · show min (c + b) n - c ≤ b ∧ c < min (c + b) n
          constructor <;> omega
        · exact ih (min (c + b) n) n b rs' hb (by omega) hcl p hp'

/-- Net effect of one claimed range `[s, e)` of the engine loop body
(main.cu lines 85-114): for each `idx` in the range the overlap's
sub-sequences are submitted to the aligner, the whole batch is aligned,
and `cigar[idx_start + i]` receives the `i`-th alignment's CIGAR string —
i.e. `cigar[idx] := ac(overlaps[idx])` for `idx ∈ [s, e)`, with `ac`
abstracting the out-of-scope aligner. -/
def write_range (ac : Overlap → String) (ovl : List Overlap) (s e : Nat)
    (cg : List String) : List String :=
  (List.range' s (e - s)).foldl (fun c i => c.set i (ac (ovl.getD i default))) cg

/-- Setting then reading the same position. -/
lemma getD_set_self :
    ∀ (l : List String) (i : Nat) (a : String), i < l.length →
      (l.set i a).getD i "" = a := by
  intro l
  induction l with
  | nil => intro i a h; simp at h
  | cons x xs ih =>
    intro i a h
    cases i with
    | zero => rfl
    | succ i =>
      simp only [List.set_cons_succ, List.getD_cons_succ]
      exact ih i a (by simpa using h)

/-- Setting one position leaves the others unchanged. -/
lemma getD_set_ne :
    ∀ (l : List String) (i j : Nat) (a : String), i ≠ j →
      (l.set i a).getD j "" = l.getD j "" := by
  intro l
  induction l with
  | nil => intro i j a _; simp
  | cons x xs ih =>
    intro i j a h
    cases i with
    | zero =>
      cases j with
      | zero => exact absurd rfl h
      | succ j => simp
    | succ i =>
      cases j with
      | zero => simp
      | succ j =>
        simp only [List.set_cons_succ, List.getD_cons_succ]
        exact ih i j a fun hh => h (by omega)

/-- Folding point-writes over an index list: a position holds the written
value iff its index occurs in the list. -/
lemma foldl_set_getD (ac : Overlap → String) (ovl : List Overlap) :
    ∀ (L : List Nat) (cg : List String) (i : Nat), i < cg.length →
      ((L.foldl (fun c j => c.set j (ac (ovl.getD j default))) cg).getD i "")
        = if i ∈ L then ac (ovl.getD i default) else cg.getD i "" := by
  intro L
  induction L with
  | nil => intro cg i _; simp
  | cons j L ih =>
    intro cg i h
    simp only [List.foldl_cons]
    have hlen : i < (cg.set j (ac (ovl.getD j default))).length := by simpa using h
    rw [ih _ i hlen]
    by_cases hiL : i ∈ L
    · rw [if_pos hiL, if_pos (List.mem_cons_of_mem j hiL)]
    · by_cases hij : i = j
      · subst hij
        rw [if_neg hiL, if_pos (List.mem_cons_self i L), getD_set_self cg i _ h]
      · have hnm : i ∉ j :: L := by
          intro hm
          rcases List.mem_cons.mp hm with h' | h'
          · exact hij h'
          · exact hiL h'
        rw [if_neg hiL, if_neg hnm, getD_set_ne cg j i _ fun hh => hij hh.symm]

/-- Point-write folds preserve the array length. -/
lemma foldl_set_length (ac : Overlap → String) (ovl : List Overlap) :
    ∀ (L : List Nat) (cg : List String),
      (L.foldl (fun c j => c.set j (ac (ovl.getD j default))) cg).length = cg.length := by
  intro L
  induction L with
  | nil => intro cg; rfl
  | cons j L ih =>
    intro cg
    rw [List.foldl_cons, ih, List.length_set]

/-- The contents of a written range, by position. -/
lemma write_range_getD (ac : Overlap → String) (ovl : List Overlap)
    (s e : Nat) (cg : List String) (i : Nat) (h : i < cg.length) :
    (write_range ac ovl s e cg).getD i ""
      = if i ∈ List.range' s (e - s) then ac (ovl.getD i default)
        else cg.getD i "" :=
  foldl_set_getD ac ovl (List.range' s (e - s)) cg i h

/-- A written range preserves the cigar-array length. -/
lemma write_range_length (ac : Overlap → String) (ovl : List Overlap)
    (s e : Nat) (cg : List String) :
    (write_range ac ovl s e cg).length = cg.length :=
  foldl_set_length ac ovl (List.range' s (e - s)) cg

/-- The sequential composition of all claimed-range bodies. The ranges
are pairwise disjoint, so the final array is the same whichever engine
thread executes which range. -/
def run_ranges (ac : Overlap → String) (ovl : List Overlap)
    (rs : List (Nat × Nat)) (cg : List String) : List String :=
  rs.foldl (fun c p => write_range ac ovl p.1 p.2 c) cg

/-- Range bodies preserve the cigar-array length. -/
lemma run_ranges_length (ac : Overlap → String) (ovl : List Overlap) :
    ∀ (rs : List (Nat × Nat)) (cg : List String),
      (run_ranges ac ovl rs cg).length = cg.length := by
  intro rs
  induction rs with
  | nil => intro cg; rfl
  | cons p rs ih =>
    intro cg
    have hstep : run_ranges ac ovl (p :: rs) cg
        = run_ranges ac ovl rs (write_range ac ovl p.1 p.2 cg) := rfl
    rw [hstep, ih, write_range_length]

/-- A cigar entry holds its overlap's CIGAR iff its index is covered by
one of the ranges. -/
lemma run_ranges_getD (ac : Overlap → String) (ovl : List Overlap) :
    ∀ (rs : List (Nat × Nat)) (cg : List String) (i : Nat), i < cg.length →
      (run_ranges ac ovl rs cg).getD i ""
        = if i ∈ rs.flatMap (fun p => List.range' p.1 (p.2 - p.1))
          then ac (ovl.getD i default) else cg.getD i "" := by
  intro rs
  induction rs with
  | nil => intro cg i _; simp [run_ranges]
  | cons p rs ih =>
    intro cg i h
    have hstep : run_ranges ac ovl (p :: rs) cg
        = run_ranges ac ovl rs (write_range ac ovl p.1 p.2 cg) := rfl
    have hwlen : i < (write_range ac ovl p.1 p.2 cg).length := by
      rw [write_range_length]; exact h
    rw [hstep, ih _ i hwlen, List.flatMap_cons]
    by_cases hiL : i ∈ rs.flatMap (fun p => List.range' p.1 (p.2 - p.1))
    · rw [if_pos hiL, if_pos (List.mem_append_right _ hiL)]
    · rw [if_neg hiL, write_range_getD ac ovl _ _ cg i h]
      by_cases hir : i ∈ List.range' p.1 (p.2 - p.1)
      · rw [if_pos hir, if_pos (List.mem_append_left _ hir)]
      · have hnm : i ∉ List.range' p.1 (p.2 - p.1)
            ++ rs.flatMap (fun p => List.range' p.1 (p.2 - p.1)) := by
          intro hm
          rcases List.mem_append.mp hm with h' | h'
          · exact hir h'
          · exact hiL h'
        rw [if_neg hir, if_neg hnm]

/-- Embedding of `run_alignment_batch` (main.cu lines 46-117): the engine
threads repeatedly claim cursor ranges and fill the shared `cigar` array;
the result is the final array, or `none` when the claiming loop does not
terminate within `fuel` critical sections. -/
def run_alignment_batch (ac : Overlap → String) (ovl : List Overlap)
    (b fuel : Nat) (cg : List String) : Option (List String) :=
  (claim_loop fuel 0 ovl.length b).map fun rs => run_ranges ac ovl rs cg

/-- Embedding of `align_overlaps` (main.cu lines 126-182): compute the
maxima and the batch size, then run the engine workers. There is no
error path: whatever `batch_size` comes out (including `0`), the workers
are launched. -/
def align_overlaps (ac : Overlap → String) (overlaps : List Overlap)
    (free engines fuel : Nat) (cg : List String) : Option (List String) :=
  run_alignment_batch ac overlaps
    (batch_size overlaps.length free
      (max_sizes overlaps).1 (max_sizes overlaps).2 engines)
    fuel cg

/-- C5: under `batch_size >= 1`, the serialized cursor claims form
contiguous ranges of at most `batch_size` indices tiling exactly
`[0, number_of_overlaps)` (each index claimed exactly once — the
concatenation of the ranges is the duplicate-free interval), and the
final cigar array assigns to every index `i` the CIGAR string of the
alignment of `overlaps[i]`. -/
theorem alignment_range_partition_and_cigar
    (ac : Overlap → String) (ovl : List Overlap) (b fuel : Nat)
    (cg : List String) (rs : List (Nat × Nat))
    (hb : 1 ≤ b) (hlen : cg.length = ovl.length)
    (hclaim : claim_loop fuel 0 ovl.length b = some rs) :
    rs.flatMap (fun p => List.range' p.1 (p.2 - p.1)) = List.range' 0 ovl.length
    ∧ (∀ p ∈ rs, p.2 - p.1 ≤ b ∧ p.1 < p.2)
    ∧ run_alignment_batch ac ovl b fuel cg = some (run_ranges ac ovl rs cg)
    ∧ ∀ i < ovl.length,
        (run_ranges ac ovl rs cg).getD i "" = ac (ovl.getD i default) := by
  have hidx := claim_loop_indices fuel 0 ovl.length b rs hclaim (Nat.zero_le _)
  simp only [Nat.sub_zero] at hidx
  refine ⟨hidx,
    claim_loop_range_bounds fuel 0 ovl.length b rs hb (Nat.zero_le _) hclaim,
    ?_, ?_⟩
  · unfold run_alignment_batch
    rw [hclaim]
    rfl
  · intro i hi
    rw [run_ranges_getD ac ovl rs cg i (by omega), hidx]
    simp [List.mem_range'_1, hi]

/-- Concrete CIGAR abstraction used by witnesses. -/
def cigar_fn_example : Overlap → String := fun o => toString o.query_read_id

/-- Concrete overlap list of three overlaps used by the C5 witness. -/
def overlaps_example3 : List Overlap :=
  [⟨0, 0, 0, 5, 0, 4, false⟩, ⟨1, 1, 0, 3, 0, 3, false⟩, ⟨2, 2, 0, 2, 0, 2, true⟩]

/-- Concrete initial cigar array used by the C5 witness. -/
def cigar_init_example : List String := ["", "", ""]

/-- Witness for C5: three overlaps, batch size two — ranges
`[0,2), [2,3)` tile `[0,3)` and entry 1 receives its overlap's CIGAR. -/
theorem alignment_range_partition_and_cigar_witness :
    ([((0 : Nat), (2 : Nat)), (2, 3)].flatMap
        (fun p => List.range' p.1 (p.2 - p.1)) = List.range' 0 3)
    ∧ (run_ranges cigar_fn_example overlaps_example3
          [(0, 2), (2, 3)] cigar_init_example).getD 1 ""
        = cigar_fn_example (overlaps_example3.getD 1 default) := by
  have h := alignment_range_partition_and_cigar cigar_fn_example overlaps_example3
    2 4 cigar_init_example [(0, 2), (2, 3)] (by decide) (by decide) (by decide)
  exact ⟨by simpa using h.1, h.2.2.2 1 (by decide)⟩

/-- C9: with a non-empty overlap list and `batch_size = 0` the claiming
loop of `run_alignment_batch` never terminates (the claimed range is
always empty and the cursor never advances); `batch_size = 0` occurs
whenever `num_alignment_engines > min(number_of_overlaps,
max_alignments)`; and for every `batch_size >= 1` the claiming loop
terminates. -/
theorem zero_batch_size_livelock
    (ac : Overlap → String) (ovl : List Overlap) (cg : List String)
    (n free mq mt e fuel b : Nat) :
    (0 < ovl.length → run_alignment_batch ac ovl 0 fuel cg = none)
    ∧ (min n (max_alignments free mq mt) < e → batch_size n free mq mt e = 0)
    ∧ (1 ≤ b → (run_alignment_batch ac ovl b (ovl.length + 1) cg).isSome = true) := by
  refine ⟨?_, ?_, ?_⟩
  · intro h
    unfold run_alignment_batch
    rw [claim_loop_zero_stuck fuel 0 ovl.length h]
    rfl
  · intro h
    unfold batch_size
    exact Nat.div_eq_of_lt h
  · intro hb
    unfold run_alignment_batch
    have hterm := claim_loop_terminates (ovl.length + 1) 0 ovl.length b hb
      (Nat.zero_le _) (by omega)
    cases hcl : claim_loop (ovl.length + 1) 0 ovl.length b with
    | none => rw [hcl] at hterm; simp at hterm
    | some rs => simp

/-- Witness for C9 at concrete inputs: two overlaps with batch size zero
loop forever, a concrete configuration yields batch size zero, and batch
size one terminates. -/
theorem zero_batch_size_livelock_witness :
    run_alignment_batch cigar_fn_example overlaps_example 0 7 ["", ""] = none
    ∧ batch_size 3 100000 10 10 4 = 0
    ∧ (run_alignment_batch cigar_fn_example overlaps_example 1 3 ["", ""]).isSome = true := by
  have h := zero_batch_size_livelock cigar_fn_example overlaps_example ["", ""]
    3 100000 10 10 4 7 1
  exact ⟨h.1 (by decide),
    h.2.1 (Nat.lt_of_le_of_lt (Nat.min_le_left 3 _) (by decide)),
    by simpa using h.2.2 (by decide)⟩

/-- Counterexample for C2: at `free = 100000`, `max_query_len =
max_target_len = 100`, one overlap and two alignment engines, the memory
condition `0.85 * free >= k * max_query_len * max_target_len` holds
(`85000 >= 300`), yet the computed `batch_size` is `0`, not `>= 1`:
`min(1, 283) / 2 = 0`. -/
theorem batch_size_memory_condition_counterexample :
    ((3 / 100 : ℚ) * 100 * 100 ≤ (100000 : ℚ) * 85 / 100)
    ∧ ¬ 1 ≤ batch_size 1 100000 100 100 2 := by
  constructor
  · norm_num
  · have h := max_alignments_eq_nat_formula 100000 100 100 (by norm_num)
    unfold batch_size
    rw [h]
    decide

/-- C2 (amended): `batch_size >= 1` exactly requires
`num_engines <= min(number_of_overlaps, max_alignments)` — the memory
condition alone does not suffice; when the memory condition fails
(`0.85 * free < k * max_query_len * max_target_len` with positive
maxima), `batch_size = 0`, and `align_overlaps` does not report resource
exhaustion: it proceeds to launch the engine workers, whose claiming loop
then never terminates on a non-empty overlap list. -/
theorem batch_size_dichotomy
    (n free mq mt e : Nat) (he : 1 ≤ e) (hmm : 0 < mq * mt) :
    (1 ≤ batch_size n free mq mt e ↔ e ≤ min n (max_alignments free mq mt))
    ∧ ((free : ℚ) * 85 / 100 < (3 / 100 : ℚ) * mq * mt →
        batch_size n free mq mt e = 0)
    ∧ (∀ (ac : Overlap → String) (ovl : List Overlap) (cg : List String)
        (fuel : Nat), 0 < ovl.length → max_sizes ovl = (mq, mt) →
        (free : ℚ) * 85 / 100 < (3 / 100 : ℚ) * mq * mt →
        align_overlaps ac ovl free e fuel cg = none) := by
  have hmq0 : mq ≠ 0 := by rintro rfl; simp at hmm
  have hmt0 : mt ≠ 0 := by rintro rfl; simp at hmm
  have hma : ((free : ℚ) * 85 / 100 < (3 / 100 : ℚ) * mq * mt) →
      max_alignments free mq mt = 0 := by
    intro hlt
    unfold max_alignments
    rw [Nat.floor_eq_zero]
    have h1 : (0 : ℚ) < (mq : ℚ) := by exact_mod_cast Nat.pos_of_ne_zero hmq0
    have h2 : (0 : ℚ) < (mt : ℚ) := by exact_mod_cast Nat.pos_of_ne_zero hmt0
    have h3 : (0 : ℚ) < (3 / 100 : ℚ) := by norm_num
    have hdpos : (0 : ℚ) < (3 / 100 : ℚ) * mq * mt :=
      mul_pos (mul_pos h3 h1) h2
    exact (div_lt_one hdpos).mpr hlt
  refine ⟨?_, ?_, ?_⟩
  · unfold batch_size
    exact Nat.one_le_div_iff (by omega)
  · intro hlt
    unfold batch_size
    rw [hma hlt]
    simp
  · intro ac ovl cg fuel hovl hms hlt
    have h1 : (max_sizes ovl).1 = mq := by rw [hms]
    have h2 : (max_sizes ovl).2 = mt := by rw [hms]
    have hbz : batch_size ovl.length free mq mt e = 0 := by
      unfold batch_size
      rw [hma hlt]
      simp
    unfold align_overlaps
    rw [h1, h2, hbz]
    unfold run_alignment_batch
    rw [claim_loop_zero_stuck fuel 0 ovl.length hovl]
    rfl

/-- Witness for the amended C2: enough memory and one engine give a
positive batch size; with ample memory but more engines than overlaps
the batch size is NOT positive (the only-if direction); scarce memory
gives batch size zero; and with scarce memory `align_overlaps` runs the
workers into the non-terminating loop instead of reporting an error. -/
theorem batch_size_dichotomy_witness :
    1 ≤ batch_size 5 100000 10 10 1
    ∧ ¬ 1 ≤ batch_size 1 100000 100 100 2
    ∧ batch_size 5 100 100 100 1 = 0
    ∧ align_overlaps cigar_fn_example overlaps_example 0 1 9 ["", ""] = none := by
  have hma : max_alignments 100000 10 10 = 85 * 100000 / (3 * (10 * 10)) :=
    max_alignments_eq_nat_formula 100000 10 10 (by norm_num)
  have h := batch_size_dichotomy 5 100000 10 10 1 (by decide) (by decide)
  have h2 := batch_size_dichotomy 5 100 100 100 1 (by decide) (by decide)
  have h3 := batch_size_dichotomy 0 0 7 4 1 (by decide) (by decide)
  have h4 := batch_size_dichotomy 1 100000 100 100 2 (by decide) (by decide)
  refine ⟨h.1.mpr ?_, ?_, h2.2.1 (by norm_num), ?_⟩
  · rw [Nat.le_min]
    exact ⟨by decide, by rw [hma]; decide⟩
  · intro hge
    exact absurd (h4.1.mp hge)
      (Nat.not_le.mpr (Nat.lt_of_le_of_lt (Nat.min_le_left 1 _) (by decide)))
  · exact h3.2.2 cigar_fn_example overlaps_example ["", ""] 9
      (by decide) (by decide) (by norm_num)

/-- Observable pipeline events of the worker, writer, engine and main
threads. `printPaf` records the element id, the two parser arguments
passed to `print_paf`, and the kmer size. -/
inductive Ev where
  | setDevice (id : Nat)
  | getDevice
  | streamCreate
  | createAligner
  | alignChunk
  | streamDestroy
  | mainStreamDestroy (id : Nat)
  | streamSync
  | spawnWriter
  | processBatch
  | signalLast
  | joinWriter
  | joinWorker (id : Nat)
  | postProcess (elem : Nat)
  | printPaf (elem qparserArg tparserArg kmer : Nat)
deriving DecidableEq

/-- Queue state of a `ThreadsafeProducerConsumer` (elements held by
opaque ids, plus whether the terminal signal has been posted). The queue
implementation lives in `claragenomics/utils/threadsafe_containers.hpp`,
which is not part of the sources; its operations below are modelled from
the spec. -/
structure QState where
  elems : List Nat
  lastSignalled : Bool
deriving DecidableEq

/-- Modelled from the spec: `ThreadsafeProducerConsumer::add_new_element`
(missing from the sources) appends the element; it never blocks the
producer beyond lock contention. -/
def add_new_element (st : QState) (e : Nat) : QState :=
  ⟨st.elems ++ [e], st.lastSignalled⟩

/-- Modelled from the spec:
`ThreadsafeProducerConsumer::signal_pushed_last_element` (missing from
the sources) posts the one-shot "no more elements" signal. -/
def signal_pushed_last_element (st : QState) : QState :=
  ⟨st.elems, true⟩

/-- Modelled from the spec:
`ThreadsafeProducerConsumer::get_next_element` (missing from the
sources) returns the oldest element if one is available; with no element
and the terminal signal posted it returns the empty optional (terminal
condition); with no element and no signal it blocks — modelled as the
outer `none`. -/
def get_next_element : QState → Option (Option Nat × QState)
  | ⟨e :: es, s⟩ => some (some e, ⟨es, s⟩)
  | ⟨[], true⟩ => some (none, ⟨[], true⟩)
  | ⟨[], false⟩ => none

/-- The sequence of elements a consumer receives before the terminal
empty result, by repeated `get_next_element`; `none` models a consumer
that blocks (or fuel running out). -/
def consume_all : Nat → QState → Option (List Nat)
  | 0, _ => none
  | fuel + 1, st =>
    match get_next_element st with
    | none => none
    | some (none, _) => some []
    | some (some e, st') => (consume_all fuel st').map fun es => e :: es

/-- One `process_one_batch` call either returns normally (`ok`) or
propagates an exception (`throws`) — e.g. a failed `add_alignment`
submission raised in `run_alignment_batch` (main.cu line 98) and
rethrown by the `future.get()` of `align_overlaps` (line 180). -/
inductive BatchOutcome where
  | ok
  | throws
deriving DecidableEq

/-- The batch-popping loop of `worker_thread_function` (main.cu lines
379-393), over the successive outcomes of `process_one_batch`: the
events of the processed batches, and whether the loop completed normally
(`false` when an exception aborted it). -/
def worker_loop : List BatchOutcome → List Ev × Bool
  | [] => ([], true)
  | BatchOutcome.ok :: rest =>
    let r := worker_loop rest
    (Ev.processBatch :: r.1, r.2)
  | BatchOutcome.throws :: _ => ([Ev.processBatch], false)

/-- Embedding of `worker_thread_function` (main.cu lines 342-402): pin
the device (line 349), spawn the writer thread (line 373), process
batches until the provider is exhausted (lines 380-393), and — only when
no exception escaped the loop — signal the last element (line 396), join
the writer (line 398) and synchronize the stream (line 401). The calls
after the loop are plain statements, not a scope guard, so an exception
skips them and propagates out of the thread function. -/
def worker_thread_function (device_id : Nat) (batches : List BatchOutcome) :
    List Ev × Bool :=
  let r := worker_loop batches
  (Ev.setDevice device_id :: Ev.spawnWriter ::
      (r.1 ++ (if r.2 then [Ev.signalLast, Ev.joinWriter, Ev.streamSync] else [])),
   r.2)

/-- The slice of `ApplicationParameters` the writer uses; the parsers
are identified by opaque ids (in non-all-to-all mode
`queryParser ≠ targetParser`). -/
structure Params where
  device : Nat
  queryParser : Nat
  targetParser : Nat
  kmer : Nat
  allToAll : Bool
  numDevices : Nat
deriving DecidableEq

/-- Body of the writer loop for one received element (main.cu lines
312-326): post-process the overlaps, then call `print_paf(overlaps,
cigars, *application_parameters.query_parser,
*application_parameters.query_parser, kmer_size, output_mutex)` — the
query parser is passed for BOTH parser arguments (lines 322-323). -/
def writer_step (p : Params) (e : Nat) : List Ev :=
  [Ev.postProcess e, Ev.printPaf e p.queryParser p.queryParser p.kmer]

/-- The element-draining loop of `writer_thread_function` (main.cu lines
308-329) against the queue model; `none` models blocking forever (or
fuel running out). -/
def writer_loop : Nat → Params → QState → Option (List Ev)
  | 0, _, _ => none
  | fuel + 1, p, st =>
    match get_next_element st with
    | none => none
    | some (none, _) => some []
    | some (some e, st') =>
      (writer_loop fuel p st').map fun tr => writer_step p e ++ tr

/-- Embedding of `writer_thread_function` (main.cu lines 300-330): pin
the device (line 306), then drain the queue until the terminal empty
optional arrives. -/
def writer_thread_function (p : Params) (st : QState) (fuel : Nat) :
    Option (List Ev) :=
  (writer_loop fuel p st).map fun tr => Ev.setDevice p.device :: tr

/-- The per-device shutdown sequence of `main` (main.cu lines 445-450):
set the device, join its worker thread, then destroy its stream. -/
def main_shutdown (num_devices : Nat) : List Ev :=
  (List.range num_devices).flatMap fun d =>
    [Ev.setDevice d, Ev.joinWorker d, Ev.mainStreamDestroy d]

/-- Device-call trace of `run_alignment_batch` (main.cu lines 54-116) as
executed by each engine thread spawned with `std::async`: it calls
`cudaGetDevice` (line 56) and `cudaStreamCreate` (line 58), creates its
aligner, runs the claiming loop, and destroys its stream. It never
calls `cudaSetDevice`. -/
def run_alignment_batch_trace (n b fuel : Nat) : Option (List Ev) :=
  (claim_loop fuel 0 n b).map fun rs =>
    Ev.getDevice :: Ev.streamCreate :: Ev.createAligner ::
      (rs.map (fun _ => Ev.alignChunk) ++ [Ev.streamDestroy])

/-- Whether an event is a set-device call. -/
def is_set_device : Ev → Bool
  | Ev.setDevice _ => true
  | _ => false

/-- C3 (code behavior): when processing a batch throws, the exception
propagates out of `worker_thread_function` before
`signal_pushed_last_element` (line 396) is reached — no scope guard
sends it — so the terminal signal is NOT sent on the error path; it is
sent on the normal path. -/
theorem worker_error_path_drops_terminal_signal :
    Ev.signalLast ∉ (worker_thread_function 0 [BatchOutcome.throws]).1
    ∧ Ev.signalLast ∈ (worker_thread_function 0 [BatchOutcome.ok]).1 := by
  decide

/-- C4 (code behavior): the engine thread function `run_alignment_batch`
issues no set-device call at all, although it issues device calls
(stream creation); the worker and writer thread functions do pin their
device first. -/
theorem alignment_threads_lack_set_device :
    ((run_alignment_batch_trace 3 2 5).getD []).all (fun e => !is_set_device e) = true
    ∧ Ev.streamCreate ∈ (run_alignment_batch_trace 3 2 5).getD []
    ∧ (worker_thread_function 1 [BatchOutcome.ok]).1.head? = some (Ev.setDevice 1)
    ∧ ((writer_thread_function ⟨1, 2, 3, 15, false, 2⟩ ⟨[], true⟩ 1).getD []).head?
        = some (Ev.setDevice 1) := by
  decide

/-- On the success path the worker loop emits one processed-batch event
per popped batch and completes normally. -/
lemma worker_loop_ok :
    ∀ bs : List BatchOutcome, (∀ b ∈ bs, b = BatchOutcome.ok) →
      worker_loop bs = (bs.map fun _ => Ev.processBatch, true) := by
  intro bs
  induction bs with
  | nil => intro _; rfl
  | cons b bs ih =>
    intro h
    have hb : b = BatchOutcome.ok := h b (List.mem_cons_self b bs)
    subst hb
    have hr := ih fun c hc => h c (List.mem_cons_of_mem _ hc)
    simp [worker_loop, hr]

/-- A signalled queue with `N` elements is drained completely: the
writer processes every element in FIFO order and then terminates. -/
lemma writer_loop_drains (p : Params) :
    ∀ es : List Nat,
      writer_loop (es.length + 1) p ⟨es, true⟩
        = some (es.flatMap (writer_step p)) := by
  intro es
  induction es with
  | nil => rfl
  | cons e es ih =>
    show (writer_loop (es.length + 1) p ⟨es, true⟩).map
        (fun tr => writer_step p e ++ tr) = _
    rw [ih]
    simp [List.flatMap_cons]

/-- Infixes survive prepending. -/
lemma infix_append_right {α : Type} {t m : List α} (l : List α)
    (h : List.IsInfix t m) : List.IsInfix t (l ++ m) := by
  obtain ⟨s, u, rfl⟩ := h
  exact ⟨l ++ s, u, by simp⟩

/-- Each member's image is an infix of the concatenated image. -/
lemma infix_flatMap_of_mem {α β : Type} (f : α → List β) :
    ∀ (l : List α) (a : α), a ∈ l → List.IsInfix (f a) (l.flatMap f) := by
  intro l
  induction l with
  | nil => intro a ha; cases ha
  | cons x xs ih =>
    intro a ha
    rw [List.flatMap_cons]
    rcases List.mem_cons.mp ha with rfl | ha'
    · exact ⟨[], xs.flatMap f, by simp⟩
    · exact infix_append_right _ (ih a ha')

/-- C7: on the success path the worker signals "no more elements" only
after every popped batch has been processed, then joins its writer, and
synchronizes its stream only after that join; the writer drains every
queued element (post-processing and writing each) before terminating;
and `main` destroys a device's stream only after joining that device's
worker thread. -/
theorem shutdown_ordering
    (d : Nat) (bs : List BatchOutcome) (p : Params) (es : List Nat)
    (nd dev : Nat)
    (hok : ∀ b ∈ bs, b = BatchOutcome.ok) (hdev : dev < nd) :
    (worker_thread_function d bs).1
      = Ev.setDevice d :: Ev.spawnWriter ::
          ((bs.map fun _ => Ev.processBatch)
            ++ [Ev.signalLast, Ev.joinWriter, Ev.streamSync])
    ∧ writer_thread_function p ⟨es, true⟩ (es.length + 1)
        = some (Ev.setDevice p.device :: es.flatMap (writer_step p))
    ∧ List.IsInfix [Ev.joinWorker dev, Ev.mainStreamDestroy dev]
        (main_shutdown nd) := by
  refine ⟨?_, ?_, ?_⟩
  · unfold worker_thread_function
    rw [worker_loop_ok bs hok]
    rfl
  · unfold writer_thread_function
    rw [writer_loop_drains p es]
    rfl
  · have hmem : dev ∈ List.range nd := List.mem_range.mpr hdev
    have hfull := infix_flatMap_of_mem
      (fun d => [Ev.setDevice d, Ev.joinWorker d, Ev.mainStreamDestroy d])
      (List.range nd) dev hmem
    exact List.IsInfix.trans ⟨[Ev.setDevice dev], [], by simp⟩ hfull

/-- Witness for C7 at one successful batch, a two-element queue and two
devices. -/
theorem shutdown_ordering_witness :
    (worker_thread_function 0 [BatchOutcome.ok]).1
      = [Ev.setDevice 0, Ev.spawnWriter, Ev.processBatch,
         Ev.signalLast, Ev.joinWriter, Ev.streamSync]
    ∧ writer_thread_function ⟨2, 3, 4, 15, true, 2⟩ ⟨[5, 6], true⟩ 3
        = some [Ev.setDevice 2, Ev.postProcess 5, Ev.printPaf 5 3 3 15,
                Ev.postProcess 6, Ev.printPaf 6 3 3 15]
    ∧ List.IsInfix [Ev.joinWorker 1, Ev.mainStreamDestroy 1] (main_shutdown 2) := by
  have h := shutdown_ordering 0 [BatchOutcome.ok] ⟨2, 3, 4, 15, true, 2⟩ [5, 6] 2 1
    (by decide) (by decide)
  exact ⟨h.1, h.2.1, h.2.2⟩

/-- Every print event the writer loop emits passes the query parser for
both parser arguments. -/
lemma writer_loop_print_args (p : Params) :
    ∀ (fuel : Nat) (st : QState) (tr : List Ev),
      writer_loop fuel p st = some tr →
      ∀ e a b k : Nat, Ev.printPaf e a b k ∈ tr →
        a = p.queryParser ∧ b = p.queryParser := by
  intro fuel
  induction fuel with
  | zero => intro st tr h; cases h
  | succ fuel ih =>
    intro st tr h e a b k hm
    obtain ⟨els, sig⟩ := st
    cases els with
    | nil =>
      cases sig with
      | true =>
        have hred : writer_loop (fuel + 1) p ⟨[], true⟩ = some [] := rfl
        rw [hred] at h
        simp only [Option.some.injEq] at h
        subst h
        cases hm
      | false =>
        have hred : writer_loop (fuel + 1) p ⟨[], false⟩ = none := rfl
        rw [hred] at h
        cases h
    | cons e' es =>
      have hred : writer_loop (fuel + 1) p ⟨e' :: es, sig⟩
          = (writer_loop fuel p ⟨es, sig⟩).map fun tr => writer_step p e' ++ tr := rfl
      rw [hred] at h
      cases hwl : writer_loop fuel p ⟨es, sig⟩ with
      | none => rw [hwl] at h; cases h
      | some tr' =>
        rw [hwl] at h
        simp only [Option.map_some', Option.some.injEq] at h
        subst h
        rcases List.mem_append.mp hm with hmw | hmt
        · rcases List.mem_cons.mp hmw with hc | hc
          · cases hc
          · have hc' := List.mem_singleton.mp hc
            injection hc' with h1 h2 h3 h4
            exact ⟨h2, h3⟩
        · exact ih ⟨es, sig⟩ tr' hwl e a b k hmt

/-- C8: for every element the writer receives, `print_paf` is called
with the query parser as BOTH the query-side and the target-side parser
argument — also when the application's target parser differs from its
query parser (non-all-to-all mode). -/
theorem writer_passes_query_parser_twice
    (p : Params) (st : QState) (fuel : Nat) (tr : List Ev)
    (e a b k : Nat)
    (h : writer_thread_function p st fuel = some tr)
    (hm : Ev.printPaf e a b k ∈ tr) :
    a = p.queryParser ∧ b = p.queryParser := by
  unfold writer_thread_function at h
  cases hwl : writer_loop fuel p st with
  | none => rw [hwl] at h; cases h
  | some tr' =>
    rw [hwl] at h
    simp only [Option.map_some', Option.some.injEq] at h
    subst h
    rcases List.mem_cons.mp hm with hc | hc
    · cases hc
    · exact writer_loop_print_args p fuel st tr' hwl e a b k hc

/-- Witness for C8: a writer whose target parser (id 4) differs from its
query parser (id 3) still prints with parser id 3 on both sides. -/
theorem writer_passes_query_parser_twice_witness :
    writer_thread_function ⟨0, 3, 4, 15, false, 1⟩ ⟨[9], true⟩ 2
        = some [Ev.setDevice 0, Ev.postProcess 9, Ev.printPaf 9 3 3 15]
    ∧ Params.targetParser ⟨0, 3, 4, 15, false, 1⟩
        ≠ Params.queryParser ⟨0, 3, 4, 15, false, 1⟩
    ∧ ((3 : Nat) = Params.queryParser ⟨0, 3, 4, 15, false, 1⟩
        ∧ (3 : Nat) = Params.queryParser ⟨0, 3, 4, 15, false, 1⟩) :=
  ⟨rfl, by decide,
    writer_passes_query_parser_twice ⟨0, 3, 4, 15, false, 1⟩ ⟨[9], true⟩ 2
      [Ev.setDevice 0, Ev.postProcess 9, Ev.printPaf 9 3 3 15] 9 3 3 15
      rfl (by decide)⟩

/-- Pushing elements accumulates them at the back, in order. -/
lemma foldl_add_new_element (es : List Nat) :
    ∀ (q0 : List Nat) (s : Bool),
      es.foldl add_new_element ⟨q0, s⟩ = ⟨q0 ++ es, s⟩ := by
  induction es with
  | nil => intro q0 s; simp
  | cons e es ih =>
    intro q0 s
    simp only [List.foldl_cons]
    rw [show add_new_element ⟨q0, s⟩ e = ⟨q0 ++ [e], s⟩ from rfl, ih]
    simp

/-- A signalled queue with `N` elements yields exactly those elements in
FIFO order (then the terminal empty result). -/
lemma consume_all_drains :
    ∀ es : List Nat, consume_all (es.length + 1) ⟨es, true⟩ = some es := by
  intro es
  induction es with
  | nil => rfl
  | cons e es ih =>
    show (consume_all (es.length + 1) ⟨es, true⟩).map (fun l => e :: l) = _
    rw [ih]
    rfl

/-- C10: pushing `N` elements with `add_new_element` and then calling
`signal_pushed_last_element` makes the consumer's successive
`get_next_element` calls return exactly those `N` elements in FIFO order
followed by one empty (terminal) result; and a consumer with no element
available and no termination signal posted blocks (modelled as `none`)
instead of returning prematurely. -/
theorem producer_consumer_fifo_terminal (es : List Nat) :
    consume_all (es.length + 1)
        (signal_pushed_last_element (es.foldl add_new_element ⟨[], false⟩))
      = some es
    ∧ get_next_element ⟨[], false⟩ = none := by
  constructor
  · rw [foldl_add_new_element es [] false]
    show consume_all (es.length + 1) ⟨[] ++ es, true⟩ = some es
    rw [List.nil_append]
    exact consume_all_drains es
  · rfl

end GW
